import Mathlib

/-!
Verification of the maptile-proxy core against its specification.

The development shallowly embeds the relevant parts of the repository:

* `src/gcj02.ts` — the GCJ-02 coordinate transforms.  The file contains two
  textual copies of the module (a plain one and a fully documented one); both
  are embedded, as namespaces `Gcj` (first copy) and `GcjDoc` (second copy).
  JavaScript `number` arithmetic is modelled over the reals.
* `src/index.ts` — the `LRUCache` class and the `getTile` orchestrator.
  Strings and `Map` insertion order are modelled explicitly; the asynchronous
  collaborators (S3 storage, the render engine) are modelled by the outcomes
  they deliver to `getTile`, and the tiers consulted are recorded in an event
  trace.
* `src/storage.ts` — the S3 tile key `prefix/z/x/y.format`.
-/

namespace MaptileProxy

/-! ### `src/gcj02.ts`, first copy (lines 12–176)

Constants `GCJ02_CONSTANTS` and the transform helpers, embedded over `ℝ`. -/

namespace Gcj

noncomputable def PI : ℝ := Real.pi

def AXIS : ℝ := 6378245.0

def OFFSET : ℝ := 0.00669342162296594323

/-- `transformLat` (gcj02.ts lines 86–98). -/
noncomputable def transformLat (x y : ℝ) : ℝ :=
  (-100.0 + 2.0 * x + 3.0 * y + 0.2 * y * y + 0.1 * x * y
      + 0.2 * Real.sqrt |x|)
    + ((20.0 * Real.sin (6.0 * x * PI) + 20.0 * Real.sin (2.0 * x * PI)) * 2.0) / 3.0
    + ((20.0 * Real.sin (y * PI) + 40.0 * Real.sin ((y / 3.0) * PI)) * 2.0) / 3.0
    + ((160.0 * Real.sin ((y / 12.0) * PI) + 320 * Real.sin ((y * PI) / 30.0)) * 2.0) / 3.0

/-- `transformLon` (gcj02.ts lines 103–115). -/
noncomputable def transformLon (x y : ℝ) : ℝ :=
  (300.0 + x + 2.0 * y + 0.1 * x * x + 0.1 * x * y
      + 0.1 * Real.sqrt |x|)
    + ((20.0 * Real.sin (6.0 * x * PI) + 20.0 * Real.sin (2.0 * x * PI)) * 2.0) / 3.0
    + ((20.0 * Real.sin (x * PI) + 40.0 * Real.sin ((x / 3.0) * PI)) * 2.0) / 3.0
    + ((150.0 * Real.sin ((x / 12.0) * PI) + 300.0 * Real.sin ((x / 30.0) * PI)) * 2.0) / 3.0

/-- `delta` (gcj02.ts lines 57–68); returns `(dLon, dLat)`. -/
noncomputable def delta (wgLon wgLat : ℝ) : ℝ × ℝ :=
  let dLat0 := transformLat (wgLon - 105.0) (wgLat - 35.0)
  let dLon0 := transformLon (wgLon - 105.0) (wgLat - 35.0)
  let radLat := wgLat / 180.0 * PI
  let magic := 1 - OFFSET * Real.sin radLat * Real.sin radLat
  let sqrtMagic := Real.sqrt magic
  let dLat := dLat0 * 180.0 / ((AXIS * (1 - OFFSET)) / (magic * sqrtMagic) * PI)
  let dLon := dLon0 * 180.0 / (AXIS / sqrtMagic * Real.cos radLat * PI)
  (dLon, dLat)

/-- `outOfChina` (gcj02.ts lines 73–81). -/
def outOfChina (lon lat : ℝ) : Prop :=
  lon < 72.004 ∨ lon > 137.8347 ∨ lat < 0.8293 ∨ lat > 55.8271

noncomputable instance (lon lat : ℝ) : Decidable (outOfChina lon lat) := by
  unfold outOfChina; infer_instance

/-- Per-point body of `gcj02.toWGS84` (gcj02.ts lines 122–134): subtracts the
delta inside China, identity outside. -/
noncomputable def toWGS84point (lng lat : ℝ) : ℝ × ℝ :=
  if ¬ outOfChina lng lat then
    (lng - (delta lng lat).1, lat - (delta lng lat).2)
  else
    (lng, lat)

/-- Per-point body of `gcj02.fromWGS84` (gcj02.ts lines 139–151): adds the
delta inside China, identity outside. -/
noncomputable def fromWGS84point (lng lat : ℝ) : ℝ × ℝ :=
  if ¬ outOfChina lng lat then
    (lng + (delta lng lat).1, lat + (delta lng lat).2)
  else
    (lng, lat)

end Gcj

/-! ### `src/gcj02.ts`, second copy (lines 346–496)

The documented copy of the module declares the same constants and helpers and
then assigns `gcj02.toWGS84` / `gcj02.fromWGS84`.  Note the signs: in this
copy `toWGS84` *adds* the delta and `fromWGS84` *subtracts* it. -/

namespace GcjDoc

noncomputable def PI : ℝ := Real.pi

def AXIS : ℝ := 6378245.0

def OFFSET : ℝ := 0.00669342162296594323

/-- `transformLat` (second copy, lines 412–418). -/
noncomputable def transformLat (x y : ℝ) : ℝ :=
  (-100.0 + 2.0 * x + 3.0 * y + 0.2 * y * y + 0.1 * x * y
      + 0.2 * Real.sqrt |x|)
    + ((20.0 * Real.sin (6.0 * x * PI) + 20.0 * Real.sin (2.0 * x * PI)) * 2.0) / 3.0
    + ((20.0 * Real.sin (y * PI) + 40.0 * Real.sin ((y / 3.0) * PI)) * 2.0) / 3.0
    + ((160.0 * Real.sin ((y / 12.0) * PI) + 320 * Real.sin ((y * PI) / 30.0)) * 2.0) / 3.0

/-- `transformLon` (second copy, lines 432–438). -/
noncomputable def transformLon (x y : ℝ) : ℝ :=
  (300.0 + x + 2.0 * y + 0.1 * x * x + 0.1 * x * y
      + 0.1 * Real.sqrt |x|)
    + ((20.0 * Real.sin (6.0 * x * PI) + 20.0 * Real.sin (2.0 * x * PI)) * 2.0) / 3.0
    + ((20.0 * Real.sin (x * PI) + 40.0 * Real.sin ((x / 3.0) * PI)) * 2.0) / 3.0
    + ((150.0 * Real.sin ((x / 12.0) * PI) + 300.0 * Real.sin ((x / 30.0) * PI)) * 2.0) / 3.0

/-- `delta` (second copy, lines 370–382). -/
noncomputable def delta (wgLon wgLat : ℝ) : ℝ × ℝ :=
  let dLat0 := transformLat (wgLon - 105.0) (wgLat - 35.0)
  let dLon0 := transformLon (wgLon - 105.0) (wgLat - 35.0)
  let radLat := wgLat / 180.0 * PI
  let magic := 1 - OFFSET * Real.sin radLat * Real.sin radLat
  let sqrtMagic := Real.sqrt magic
  let dLat := dLat0 * 180.0 / ((AXIS * (1 - OFFSET)) / (magic * sqrtMagic) * PI)
  let dLon := dLon0 * 180.0 / (AXIS / sqrtMagic * Real.cos radLat * PI)
  (dLon, dLat)

/-- `outOfChina` (second copy, lines 396–398). -/
def outOfChina (lon lat : ℝ) : Prop :=
  lon < 72.004 ∨ lon > 137.8347 ∨ lat < 0.8293 ∨ lat > 55.8271

noncomputable instance (lon lat : ℝ) : Decidable (outOfChina lon lat) := by
  unfold outOfChina; infer_instance

/-- Per-point body of the second copy's `gcj02.toWGS84` (lines 455–467):
*adds* the delta inside China. -/
noncomputable def toWGS84point (lng lat : ℝ) : ℝ × ℝ :=
  if ¬ outOfChina lng lat then
    (lng + (delta lng lat).1, lat + (delta lng lat).2)
  else
    (lng, lat)

/-- Per-point body of the second copy's `gcj02.fromWGS84` (lines 484–496):
*subtracts* the delta inside China. -/
noncomputable def fromWGS84point (lng lat : ℝ) : ℝ × ℝ :=
  if ¬ outOfChina lng lat then
    (lng - (delta lng lat).1, lat - (delta lng lat).2)
  else
    (lng, lat)

end GcjDoc

/-! ### `forEachPoint` (gcj02.ts lines 29–52)

The array driver.  A transform body reads `input[offset]`, `input[offset+1]`
and writes `output[offset]`, `output[offset+1]` — every per-point body in the
module has this shape, so we take the body as a function of the two read
slots.  JavaScript array writes extend the array by one slot when the index
equals the length (which is the only out-of-range index reachable here);
out-of-range reads are modelled by the `default` element. -/

/-- JavaScript `arr[i] = v` for `i ≤ arr.length`: in-range writes update, a
write one past the end appends. -/
def writeSlot {α : Type} (l : List α) (i : ℕ) (v : α) : List α :=
  if i < l.length then l.set i v else l ++ [v]

/-- One iteration of the `forEachPoint` loop body: apply the per-point
transform to the pair read at `offset` and write both result slots. -/
def fepStep {α : Type} [Inhabited α] (f : α → α → α × α)
    (input output : List α) (offset : ℕ) : List α :=
  let r := f (input.getD offset default) (input.getD (offset + 1) default)
  writeSlot (writeSlot output offset r.1) (offset + 1) r.2

/-- The `for (let offset = 0; offset < len; offset += dimension)` loop.  The
`fuel` argument makes the recursion structural; `input.length + 1` iterations
are always enough when the stride is positive (with stride `0` the JavaScript
loop would not terminate). -/
def fepLoop {α : Type} [Inhabited α] (f : α → α → α × α)
    (input : List α) (d : ℕ) : ℕ → ℕ → List α → List α
  | 0, _, output => output
  | fuel + 1, offset, output =>
    if offset < input.length then
      fepLoop f input d fuel (offset + d) (fepStep f input output offset)
    else
      output

/-- `forEachPoint` (gcj02.ts lines 29–52, first copy).  `opt_dimension || 2`
treats the falsy `0` as absent; with no `output` argument, dimension `2`
allocates a fresh array (`Array.from({length: len})`, whose placeholder slots
are all overwritten by the loop) and any other dimension clones the input
(`input.slice()`). -/
def forEachPoint {α : Type} [Inhabited α] (f : α → α → α × α)
    (input : List α) (optOutput : Option (List α)) (optDimension : Option ℕ) :
    List α :=
  let dimension : ℕ :=
    match optDimension with
    | none => 2
    | some d => if d = 0 then 2 else d
  let output : List α :=
    match optOutput with
    | some o => o
    | none =>
      if dimension ≠ 2 then input else List.replicate input.length default
  fepLoop f input dimension (input.length + 1) 0 output

/-! ### Decimal rendering of JavaScript integer numbers

`getTile` builds its cache key with a template string; the values interpolated
are the integer tile coordinates, which JavaScript renders in decimal (with a
leading `-` for negatives).  The rendering is embedded as an explicit decimal
digit expansion, again with structural fuel (`n + 1` digits always suffice). -/

def digitChar (d : ℕ) : Char := Char.ofNat (48 + d)

/-- Most-significant-first decimal digits of a natural number. -/
def natCharsFuel : ℕ → ℕ → List Char
  | 0, _ => []
  | fuel + 1, n =>
    if n < 10 then [digitChar n]
    else natCharsFuel fuel (n / 10) ++ [digitChar (n % 10)]

def natChars (n : ℕ) : List Char := natCharsFuel (n + 1) n

/-- Decimal rendering of a JavaScript integer, as a character list. -/
def intChars (i : ℤ) : List Char :=
  if i < 0 then '-' :: natChars i.natAbs else natChars i.toNat

def intStr (i : ℤ) : String := ⟨intChars i⟩

/-- The memory-cache key `` `${x}-${y}-${z}` `` of `getTile`
(src/index.ts line 191), for integer coordinates. -/
def cacheKeyChars (x y z : ℤ) : List Char :=
  intChars x ++ '-' :: (intChars y ++ '-' :: intChars z)

/-- The S3 object key `` `${this.prefix}/${z}/${x}/${y}.${format}` `` of
`TileStorage.getTileKey` (storage.ts lines 46–48), for integer coordinates,
a fixed key namespace `pre` and a fixed `format`. -/
def getTileKey (pre : List Char) (z x y : ℤ) (format : List Char) : List Char :=
  pre ++ '/' :: (intChars z ++ '/' :: (intChars x ++ '/' :: (intChars y ++ '.' :: format)))

/-! ### `LRUCache` (src/index.ts lines 90–141)

The backing `Map<string, Buffer>` is modelled as an association list in
insertion order (oldest first), which is exactly the iteration order of a
JavaScript `Map`; `keys().next().value` is the head.  Raw tile bytes are
opaque to the cache and are modelled as naturals. -/

abbrev Buf := ℕ

/-- `Map.get`. -/
def mapGet (l : List (String × Buf)) (k : String) : Option Buf :=
  l.lookup k

/-- `Map.delete` (drops the entry for `k`; keys are unique by construction). -/
def mapDelete (l : List (String × Buf)) (k : String) : List (String × Buf) :=
  l.filter (fun p => p.1 != k)

/-- `Map.set`: update in place if present, else append as newest. -/
def mapSet (l : List (String × Buf)) (k : String) (v : Buf) : List (String × Buf) :=
  if (l.lookup k).isSome then
    l.map (fun p => if p.1 == k then (k, v) else p)
  else
    l ++ [(k, v)]

structure LRUCache where
  cache : List (String × Buf)
  maxSize : ℕ
deriving DecidableEq

namespace LRUCache

/-- `new LRUCache(maxSize)` (line 93). -/
def empty (maxSize : ℕ) : LRUCache := ⟨[], maxSize⟩

/-- `get` (lines 97–105): on a hit, delete and re-insert (promoting the entry
to most recently used) and return it; Buffers are always truthy. -/
def get (c : LRUCache) (k : String) : Option Buf × LRUCache :=
  match mapGet c.cache k with
  | some item => (some item, { c with cache := mapSet (mapDelete c.cache k) k item })
  | none => (none, c)

/-- `set` (lines 107–116): delete an existing entry for the key, otherwise at
capacity delete the first (least recently used) key — when the map is empty
`keys().next().value` is `undefined` and the delete is a no-op — then insert
as newest. -/
def set (c : LRUCache) (k : String) (v : Buf) : LRUCache :=
  let cache1 :=
    if (mapGet c.cache k).isSome then
      mapDelete c.cache k
    else if c.maxSize ≤ c.cache.length then
      match c.cache with
      | [] => ([] : List (String × Buf))
      | (k0, _) :: _ => mapDelete c.cache k0
    else
      c.cache
  { c with cache := mapSet cache1 k v }

/-- `has` (lines 118–120). -/
def has (c : LRUCache) (k : String) : Bool :=
  (mapGet c.cache k).isSome

/-- `delete` (lines 122–124). -/
def del (c : LRUCache) (k : String) : Bool × LRUCache :=
  ((mapGet c.cache k).isSome, { c with cache := mapDelete c.cache k })

/-- `clear` (lines 126–128). -/
def clear (c : LRUCache) : LRUCache :=
  { c with cache := [] }

/-- `size` (lines 130–132). -/
def size (c : LRUCache) : ℕ :=
  c.cache.length

end LRUCache

/-- One cache operation, for reasoning about arbitrary call sequences. -/
inductive CacheOp where
  | get (k : String)
  | set (k : String) (v : Buf)
  | del (k : String)
  | clear
deriving DecidableEq

def applyOp (c : LRUCache) : CacheOp → LRUCache
  | .get k => (c.get k).2
  | .set k v => c.set k v
  | .del k => (c.del k).2
  | .clear => c.clear

def applyOps (c : LRUCache) (ops : List CacheOp) : LRUCache :=
  ops.foldl applyOp c

/-! ### `getTile` (src/index.ts lines 182–306)

The orchestrator.  Arguments arrive as JavaScript values: `typeof` classifies
`NaN` and the infinities as numbers.  Finite tile coordinates are integers
(the API layer produces them with `parseInt`).  The asynchronous collaborators
are modelled by the outcomes they deliver to this one call: the S3 tier by the
result of its read (`Except` for a thrown error) and of its fire-and-forget
write, the render engine by the tile's existence, its initial state, the
outcome of the awaited state-change race, and the extracted image bytes.  The
tiers touched are recorded in an event trace, in order. -/

/-- A JavaScript `number` as far as `getTile` is concerned. -/
inductive JSNum where
  | int (i : ℤ)
  | nan
  | posInf
  | negInf
deriving DecidableEq

/-- A JavaScript argument value: `typeof v === "number"` holds exactly for
`number`. -/
inductive JSVal where
  | number (n : JSNum)
  | nonNumber
deriving DecidableEq

/-- JavaScript string interpolation of a number. -/
def jsNumStr : JSNum → String
  | .int i => intStr i
  | .nan => "NaN"
  | .posInf => "Infinity"
  | .negInf => "-Infinity"

/-- The cache key `` `${x}-${y}-${z}` `` (line 191). -/
def jsCacheKey (x y z : JSNum) : String :=
  jsNumStr x ++ "-" ++ jsNumStr y ++ "-" ++ jsNumStr z

inductive TileErr where
  | invalidParameter
  | nullTile
  | loadTimeout
  | loadError
  | invalidData
deriving DecidableEq

inductive TileEvent where
  | memGet
  | memSet
  | s3Get
  | s3Put
  | originGet
deriving DecidableEq

/-- `ol/TileState` values. -/
inductive TState where
  | idle
  | loading
  | loaded
  | empty
  | error
deriving DecidableEq

/-- Which terminal event wins the race between the state-change handler and
the load timeout (lines 234–268). -/
inductive WaitOutcome where
  | loaded
  | empty
  | error
  | timeout
deriving DecidableEq

/-- The render-engine collaborator, by the outcomes it delivers to this call. -/
structure OriginEnv where
  tileExists : Bool
  state0 : TState
  wait : WaitOutcome
  image : Option Buf
deriving DecidableEq

instance {ε α : Type} [DecidableEq ε] [DecidableEq α] : DecidableEq (Except ε α) := by
  intro x y
  cases x <;> cases y
  case ok.ok a b =>
    exact if h : a = b then .isTrue (by rw [h]) else .isFalse (by intro hh; cases hh; exact h rfl)
  case error.error a b =>
    exact if h : a = b then .isTrue (by rw [h]) else .isFalse (by intro hh; cases hh; exact h rfl)
  case ok.error a b => exact .isFalse (by intro hh; cases hh)
  case error.ok a b => exact .isFalse (by intro hh; cases hh)

/-- The S3 collaborator, by the outcomes it delivers to this call. -/
structure S3Env where
  enabled : Bool
  read : Except Unit (Option Buf)
  write : Except Unit Unit
deriving DecidableEq

structure TileOutcome where
  result : Except TileErr Buf
  mem : LRUCache
  events : List TileEvent
deriving DecidableEq

/-- The straight-line code after the load settles (src/index.ts lines
271–300): re-check the state, extract the image, populate the memory tier,
and fire the best-effort S3 write. -/
def getTileAfterLoad (key : String) (mem1 : LRUCache) (ev2 : List TileEvent)
    (s3Enabled : Bool) (st : TState) (image : Option Buf) : TileOutcome :=
  if st = .error then
    ⟨.error .loadError, mem1, ev2⟩
  else
    match image with
    | none => ⟨.error .invalidData, mem1, ev2⟩
    | some buf =>
      let mem2 := mem1.set key buf
      let ev3 := if s3Enabled then ev2 ++ [.memSet, .s3Put] else ev2 ++ [.memSet]
      ⟨.ok buf, mem2, ev3⟩

/-- `getTile` (lines 182–306). -/
def getTile (x y z : JSVal) (mem : LRUCache) (s3 : S3Env) (origin : OriginEnv) :
    TileOutcome :=
  match x, y, z with
  | .number nx, .number ny, .number nz =>
    let key := jsCacheKey nx ny nz
    -- 1. memory cache (lines 194–198)
    match mem.get key with
    | (some buf, mem1) => ⟨.ok buf, mem1, [.memGet]⟩
    | (none, mem1) =>
      -- 2. S3 cache (lines 201–214); a thrown error is caught and logged
      let s3Hit : Option Buf :=
        if s3.enabled then
          match s3.read with
          | .ok v => v
          | .error _ => none
        else none
      let ev1 : List TileEvent := if s3.enabled then [.memGet, .s3Get] else [.memGet]
      match s3Hit with
      | some buf => ⟨.ok buf, mem1.set key buf, ev1 ++ [.memSet]⟩
      | none =>
        -- 3. origin fetch (lines 217–269): null check, then the awaited
        -- state-change race unless the state is already terminal
        let ev2 := ev1 ++ [.originGet]
        if origin.tileExists = false then
          ⟨.error .nullTile, mem1, ev2⟩
        else if origin.state0 = .loaded ∨ origin.state0 = .empty then
          getTileAfterLoad key mem1 ev2 s3.enabled origin.state0 origin.image
        else
          match origin.wait with
          | .loaded => getTileAfterLoad key mem1 ev2 s3.enabled .loaded origin.image
          | .empty => getTileAfterLoad key mem1 ev2 s3.enabled .empty origin.image
          | .error => ⟨.error .loadError, mem1, ev2⟩
          | .timeout => ⟨.error .loadTimeout, mem1, ev2⟩
  | _, _, _ => ⟨.error .invalidParameter, mem, []⟩

/-! Injectivity infrastructure for the keys. -/

/-- The `typeof v === "number"` test used by `getTile`'s validation
(src/index.ts line 185). -/
def jsTypeofNumber : JSVal → Bool
  | .number _ => true
  | .nonNumber => false

/-- The tier lookups among the events (cache writes are not lookups). -/
def isReadEvent : TileEvent → Bool
  | .memGet => true
  | .s3Get => true
  | .originGet => true
  | .memSet => false
  | .s3Put => false

def readEvents (l : List TileEvent) : List TileEvent :=
  l.filter isReadEvent

/-- Value of a most-significant-first digit list. -/
def charsVal (l : List Char) : ℕ :=
  l.foldl (fun a c => 10 * a + (c.toNat - 48)) 0

theorem charsVal_append (l : List Char) (c : Char) :
    charsVal (l ++ [c]) = 10 * charsVal l + (c.toNat - 48) := by
  simp [charsVal, List.foldl_append]

theorem digitChar_toNat {d : ℕ} (hd : d < 10) : (digitChar d).toNat = 48 + d := by
  interval_cases d <;> rfl

theorem charsVal_natCharsFuel (fuel n : ℕ) (h : n ≤ fuel) :
    charsVal (natCharsFuel (fuel + 1) n) = n := by
  induction fuel generalizing n with
  | zero =>
    have : n = 0 := by omega
    subst this; rfl
  | succ fuel ih =>
    show charsVal (natCharsFuel (fuel + 1 + 1) n) = n
    rw [natCharsFuel]
    by_cases hn : n < 10
    · simp only [if_pos hn, charsVal, List.foldl]
      rw [digitChar_toNat hn]; omega
    · rw [if_neg hn, charsVal_append, ih (n / 10) (by omega),
        digitChar_toNat (Nat.mod_lt _ (by omega))]
      omega

theorem charsVal_natChars (n : ℕ) : charsVal (natChars n) = n :=
  charsVal_natCharsFuel n n (Nat.le_refl n)

theorem natChars_injective : Function.Injective natChars := by
  intro a b h
  have : charsVal (natChars a) = charsVal (natChars b) := by rw [h]
  rwa [charsVal_natChars, charsVal_natChars] at this

/-- Every character produced by the digit expansion is a decimal digit. -/
theorem natCharsFuel_digits (fuel n : ℕ) {c : Char}
    (hc : c ∈ natCharsFuel fuel n) : ∃ d, d < 10 ∧ c = digitChar d := by
  induction fuel generalizing n with
  | zero => simp [natCharsFuel] at hc
  | succ fuel ih =>
    rw [natCharsFuel] at hc
    by_cases hn : n < 10
    · rw [if_pos hn] at hc
      simp only [List.mem_singleton] at hc
      exact ⟨n, hn, hc⟩
    · rw [if_neg hn] at hc
      rcases List.mem_append.mp hc with h | h
      · exact ih _ h
      · simp only [List.mem_singleton] at h
        exact ⟨n % 10, Nat.mod_lt _ (by omega), h⟩

theorem natChars_digits {n : ℕ} {c : Char} (hc : c ∈ natChars n) :
    ∃ d, d < 10 ∧ c = digitChar d :=
  natCharsFuel_digits _ _ hc

theorem digitChar_ne {d : ℕ} (hd : d < 10) (c : Char) (hc : c.toNat < 48) :
    digitChar d ≠ c := by
  intro h
  have := digitChar_toNat hd
  rw [h] at this
  omega

theorem natChars_ne_dash {n : ℕ} {c : Char} (hc : c ∈ natChars n) : c ≠ '-' := by
  obtain ⟨d, hd, rfl⟩ := natChars_digits hc
  exact digitChar_ne hd _ (by decide)

theorem natChars_ne_slash {n : ℕ} {c : Char} (hc : c ∈ natChars n) : c ≠ '/' := by
  obtain ⟨d, hd, rfl⟩ := natChars_digits hc
  exact digitChar_ne hd _ (by decide)

theorem natChars_ne_dot {n : ℕ} {c : Char} (hc : c ∈ natChars n) : c ≠ '.' := by
  obtain ⟨d, hd, rfl⟩ := natChars_digits hc
  exact digitChar_ne hd _ (by decide)

theorem natChars_ne_nil (n : ℕ) : natChars n ≠ [] := by
  show natCharsFuel (n + 1) n ≠ []
  rw [natCharsFuel]
  by_cases hn : n < 10
  · rw [if_pos hn]; simp
  · rw [if_neg hn]; simp

theorem intChars_ne_slash {i : ℤ} {c : Char} (hc : c ∈ intChars i) : c ≠ '/' := by
  unfold intChars at hc
  by_cases hi : i < 0
  · rw [if_pos hi] at hc
    rcases List.mem_cons.mp hc with rfl | h
    · decide
    · exact natChars_ne_slash h
  · rw [if_neg hi] at hc
    exact natChars_ne_slash hc

theorem intChars_ne_dot {i : ℤ} {c : Char} (hc : c ∈ intChars i) : c ≠ '.' := by
  unfold intChars at hc
  by_cases hi : i < 0
  · rw [if_pos hi] at hc
    rcases List.mem_cons.mp hc with rfl | h
    · decide
    · exact natChars_ne_dot h
  · rw [if_neg hi] at hc
    exact natChars_ne_dot hc

theorem intChars_injective : Function.Injective intChars := by
  intro a b h
  unfold intChars at h
  by_cases ha : a < 0 <;> by_cases hb : b < 0
  · rw [if_pos ha, if_pos hb] at h
    simp only [List.cons.injEq, true_and] at h
    have := natChars_injective h
    omega
  · rw [if_pos ha, if_neg hb] at h
    exact absurd rfl (natChars_ne_dash (h ▸ List.mem_cons_self '-' _))
  · rw [if_neg ha, if_pos hb] at h
    exact absurd rfl (natChars_ne_dash (h.symm ▸ List.mem_cons_self '-' _))
  · rw [if_neg ha, if_neg hb] at h
    have := natChars_injective h
    omega

/-- Splitting at a separator character that occurs in neither left part. -/
theorem sep_split {sep : Char} :
    ∀ {A₁ A₂ R₁ R₂ : List Char}, (∀ c ∈ A₁, c ≠ sep) → (∀ c ∈ A₂, c ≠ sep) →
      A₁ ++ sep :: R₁ = A₂ ++ sep :: R₂ → A₁ = A₂ ∧ R₁ = R₂ := by
  intro A₁
  induction A₁ with
  | nil =>
    intro A₂ R₁ R₂ _ h₂ h
    cases A₂ with
    | nil => simpa using h
    | cons b t =>
      exfalso
      simp only [List.nil_append, List.cons_append, List.cons.injEq] at h
      exact h₂ b (List.mem_cons_self b t) h.1.symm
  | cons a t ih =>
    intro A₂ R₁ R₂ h₁ h₂ h
    cases A₂ with
    | nil =>
      exfalso
      simp only [List.cons_append, List.nil_append, List.cons.injEq] at h
      exact h₁ a (List.mem_cons_self a t) h.1
    | cons b t₂ =>
      simp only [List.cons_append, List.cons.injEq] at h
      obtain ⟨rfl, h⟩ := h
      obtain ⟨rfl, rfl⟩ := ih (fun c hc => h₁ c (List.mem_cons_of_mem _ hc))
        (fun c hc => h₂ c (List.mem_cons_of_mem _ hc)) h
      exact ⟨rfl, rfl⟩

/-- Splitting the memory-cache key at its first `-` separator: the leading
component is `intChars`, whose only possible `-` is its leading sign. -/
theorem intChars_dash_split {a₁ a₂ : ℤ} {R₁ R₂ : List Char}
    (h : intChars a₁ ++ '-' :: R₁ = intChars a₂ ++ '-' :: R₂) :
    a₁ = a₂ ∧ R₁ = R₂ := by
  by_cases h₁ : a₁ < 0 <;> by_cases h₂ : a₂ < 0
  · unfold intChars at h
    rw [if_pos h₁, if_pos h₂] at h
    simp only [List.cons_append, List.cons.injEq, true_and] at h
    obtain ⟨hn, hr⟩ := sep_split (fun c hc => natChars_ne_dash hc)
      (fun c hc => natChars_ne_dash hc) h
    exact ⟨by have := natChars_injective hn; omega, hr⟩
  · exfalso
    unfold intChars at h
    rw [if_pos h₁, if_neg h₂] at h
    have hne := natChars_ne_nil a₂.toNat
    cases hh : natChars a₂.toNat with
    | nil => exact hne hh
    | cons c t =>
      rw [hh] at h
      simp only [List.cons_append, List.cons.injEq] at h
      exact natChars_ne_dash (hh ▸ List.mem_cons_self c t) h.1.symm
  · exfalso
    unfold intChars at h
    rw [if_neg h₁, if_pos h₂] at h
    have hne := natChars_ne_nil a₁.toNat
    cases hh : natChars a₁.toNat with
    | nil => exact hne hh
    | cons c t =>
      rw [hh] at h
      simp only [List.cons_append, List.cons.injEq] at h
      exact natChars_ne_dash (hh ▸ List.mem_cons_self c t) h.1
  · unfold intChars at h
    rw [if_neg h₁, if_neg h₂] at h
    obtain ⟨hn, hr⟩ := sep_split (fun c hc => natChars_ne_dash hc)
      (fun c hc => natChars_ne_dash hc) h
    exact ⟨by have := natChars_injective hn; omega, hr⟩

theorem cacheKeyChars_injective {x₁ y₁ z₁ x₂ y₂ z₂ : ℤ}
    (h : cacheKeyChars x₁ y₁ z₁ = cacheKeyChars x₂ y₂ z₂) :
    x₁ = x₂ ∧ y₁ = y₂ ∧ z₁ = z₂ := by
  unfold cacheKeyChars at h
  obtain ⟨hx, h⟩ := intChars_dash_split h
  obtain ⟨hy, h⟩ := intChars_dash_split h
  exact ⟨hx, hy, intChars_injective h⟩

theorem getTileKey_injective {pre format : List Char} {x₁ y₁ z₁ x₂ y₂ z₂ : ℤ}
    (h : getTileKey pre z₁ x₁ y₁ format = getTileKey pre z₂ x₂ y₂ format) :
    x₁ = x₂ ∧ y₁ = y₂ ∧ z₁ = z₂ := by
  unfold getTileKey at h
  have h' := List.append_cancel_left h
  simp only [List.cons.injEq, true_and] at h'
  obtain ⟨hz, h'⟩ := sep_split (fun c hc => intChars_ne_slash hc)
    (fun c hc => intChars_ne_slash hc) h'
  obtain ⟨hx, h'⟩ := sep_split (fun c hc => intChars_ne_slash hc)
    (fun c hc => intChars_ne_slash hc) h'
  obtain ⟨hy, _⟩ := sep_split (fun c hc => intChars_ne_dot hc)
    (fun c hc => intChars_ne_dot hc) h'
  exact ⟨intChars_injective hx, intChars_injective hy, intChars_injective hz⟩


/-! ### Association-list lemmas for the `Map` model -/

theorem mapDelete_lookup_self (l : List (String × Buf)) (k : String) :
    (mapDelete l k).lookup k = none := by
  induction l with
  | nil => rfl
  | cons p t ih =>
    obtain ⟨a, b⟩ := p
    by_cases hp : a = k
    · have hf : (a != k) = false := by simp [hp]
      simp only [mapDelete, List.filter, hf]
      exact ih
    · have hf : (a != k) = true := by simp [hp]
      have hk : (k == a) = false := beq_eq_false_iff_ne.mpr (Ne.symm hp)
      simp only [mapDelete, List.filter, hf]
      simp only [List.lookup, hk]
      exact ih

theorem mapDelete_lookup_ne (l : List (String × Buf)) (k k' : String) (h : k' ≠ k) :
    (mapDelete l k).lookup k' = l.lookup k' := by
  induction l with
  | nil => rfl
  | cons p t ih =>
    obtain ⟨a, b⟩ := p
    by_cases hp : a = k
    · have hf : (a != k) = false := by simp [hp]
      have hk : (k' == a) = false := beq_eq_false_iff_ne.mpr (hp ▸ h)
      simp only [mapDelete, List.filter, hf]
      simp only [List.lookup, hk]
      exact ih
    · have hf : (a != k) = true := by simp [hp]
      simp only [mapDelete, List.filter, hf]
      by_cases hp' : k' = a
      · have hk : (k' == a) = true := beq_iff_eq.mpr hp'
        simp only [List.lookup, hk]
      · have hk : (k' == a) = false := beq_eq_false_iff_ne.mpr hp'
        simp only [List.lookup, hk]
        exact ih

theorem mapDelete_length_lt (l : List (String × Buf)) (k : String)
    (h : (l.lookup k).isSome) : (mapDelete l k).length < l.length := by
  induction l with
  | nil => simp [List.lookup] at h
  | cons p t ih =>
    obtain ⟨a, b⟩ := p
    by_cases hp : a = k
    · have hf : (a != k) = false := by simp [hp]
      simp only [mapDelete, List.filter, hf, List.length_cons]
      have hle := List.length_filter_le (fun q : String × Buf => q.1 != k) t
      omega
    · have hf : (a != k) = true := by simp [hp]
      have hk : (k == a) = false := beq_eq_false_iff_ne.mpr (Ne.symm hp)
      simp only [List.lookup, hk] at h
      have := ih h
      simp only [mapDelete, List.filter, hf, List.length_cons] at this ⊢
      omega

theorem lookup_append_single_self (l : List (String × Buf)) (k : String) (v : Buf)
    (h : l.lookup k = none) : (l ++ [(k, v)]).lookup k = some v := by
  induction l with
  | nil => simp [List.lookup]
  | cons p t ih =>
    obtain ⟨a, b⟩ := p
    by_cases hp : k = a
    · have hk : (k == a) = true := beq_iff_eq.mpr hp
      simp only [List.lookup, hk] at h
      exact Option.noConfusion h
    · have hk : (k == a) = false := beq_eq_false_iff_ne.mpr hp
      simp only [List.lookup, hk] at h
      simp only [List.cons_append, List.lookup, hk]
      exact ih h

theorem lookup_append_single_ne (l : List (String × Buf)) (k : String) (v : Buf)
    (k' : String) (h : k' ≠ k) : (l ++ [(k, v)]).lookup k' = l.lookup k' := by
  induction l with
  | nil =>
    have hk : (k' == k) = false := beq_eq_false_iff_ne.mpr h
    simp [List.lookup, hk]
  | cons p t ih =>
    obtain ⟨a, b⟩ := p
    by_cases hp : k' = a
    · have hk : (k' == a) = true := beq_iff_eq.mpr hp
      simp only [List.cons_append, List.lookup, hk]
    · have hk : (k' == a) = false := beq_eq_false_iff_ne.mpr hp
      simp only [List.cons_append, List.lookup, hk]
      exact ih

theorem mapSet_absent (l : List (String × Buf)) (k : String) (v : Buf)
    (h : l.lookup k = none) : mapSet l k v = l ++ [(k, v)] := by
  simp [mapSet, h]

/-! ### LRU facts feeding the cache claims -/

theorem lru_set_absent_cache1 (c : LRUCache) (k : String) (v : Buf)
    (h : c.has k = true) :
    c.set k v = { c with cache := mapDelete c.cache k ++ [(k, v)] } := by
  have hs : (mapGet c.cache k).isSome = true := h
  simp only [LRUCache.set]
  rw [if_pos hs, mapSet_absent _ _ _ (mapDelete_lookup_self _ _)]

/-- C4: with capacity 2, `set(a,1); set(b,2); get(a); set(c,3)` evicts `b`
and not `a` (the promoted `a` survives, `c` is present); and `set` on an
existing key replaces its value, promotes the entry to most recently used,
and evicts nothing (every other key's presence is unchanged). -/
theorem lru_eviction_order :
    ((((((LRUCache.empty 2).set "a" 1).set "b" 2).get "a").2.set "c" 3).has "b" = false
      ∧ ((((((LRUCache.empty 2).set "a" 1).set "b" 2).get "a").2.set "c" 3).get "a").1 = some 1
      ∧ ((((((LRUCache.empty 2).set "a" 1).set "b" 2).get "a").2.set "c" 3).get "c").1 = some 3)
    ∧ ∀ (c : LRUCache) (k : String) (v : Buf), c.has k = true →
        ((c.set k v).get k).1 = some v
        ∧ (c.set k v).cache.getLast? = some (k, v)
        ∧ ∀ k', k' ≠ k → (c.set k v).has k' = c.has k' := by
  constructor
  · refine ⟨by decide, by decide, by decide⟩
  · intro c k v h
    rw [lru_set_absent_cache1 c k v h]
    refine ⟨?_, ?_, ?_⟩
    · show (LRUCache.get _ k).1 = some v
      unfold LRUCache.get
      rw [show mapGet (mapDelete c.cache k ++ [(k, v)]) k = some v from
        lookup_append_single_self _ _ _ (mapDelete_lookup_self _ _)]
    · exact List.getLast?_concat _
    · intro k' hk'
      show (mapGet (mapDelete c.cache k ++ [(k, v)]) k').isSome = (mapGet c.cache k').isSome
      rw [show mapGet (mapDelete c.cache k ++ [(k, v)]) k'
            = List.lookup k' (mapDelete c.cache k) from
          lookup_append_single_ne _ _ _ _ hk',
        mapDelete_lookup_ne _ _ _ hk']
      rfl

/-- Witness for C4's universal part at a concrete cache. -/
theorem lru_eviction_order_witness :
    ((((LRUCache.empty 2).set "a" 1).set "a" 5).get "a").1 = some 5 :=
  (lru_eviction_order.2 ((LRUCache.empty 2).set "a" 1) "a" 5 (by decide)).1

theorem lru_get_size (c : LRUCache) (k : String) :
    ((c.get k).2).size ≤ c.size := by
  unfold LRUCache.get
  cases hm : mapGet c.cache k with
  | none => simp
  | some item =>
    simp only [LRUCache.size]
    rw [mapSet_absent _ _ _ (mapDelete_lookup_self _ _)]
    have hlt := mapDelete_length_lt c.cache k
      (show (mapGet c.cache k).isSome = true by rw [hm]; rfl)
    simp only [List.length_append, List.length_singleton]
    omega

theorem lru_set_size (c : LRUCache) (k : String) (v : Buf) (hM : 1 ≤ c.maxSize)
    (h : c.size ≤ c.maxSize) : (c.set k v).size ≤ c.maxSize := by
  simp only [LRUCache.size] at h
  by_cases hk : (mapGet c.cache k).isSome = true
  · have hlt := mapDelete_length_lt c.cache k hk
    simp only [LRUCache.set]
    rw [if_pos hk, mapSet_absent _ _ _ (mapDelete_lookup_self _ _)]
    simp only [LRUCache.size, List.length_append, List.length_singleton]
    omega
  · have hnone : mapGet c.cache k = none := by
      cases hh : mapGet c.cache k with
      | none => rfl
      | some w => exact absurd (by rw [hh]; rfl) hk
    simp only [LRUCache.set]
    rw [if_neg hk]
    by_cases hcap : c.maxSize ≤ c.cache.length
    · rw [if_pos hcap]
      cases hc : c.cache with
      | nil =>
        exfalso
        rw [hc] at hcap
        simp only [List.length_nil] at hcap
        omega
      | cons p rest =>
        obtain ⟨k0, v0⟩ := p
        have hp1 : (mapGet ((k0, v0) :: rest) k0).isSome = true := by
          simp [mapGet, List.lookup]
        have hlt := mapDelete_length_lt ((k0, v0) :: rest) k0 hp1
        have habs : (mapDelete ((k0, v0) :: rest) k0).lookup k = none := by
          by_cases hkp : k = k0
          · rw [hkp]; exact mapDelete_lookup_self _ _
          · rw [mapDelete_lookup_ne _ _ _ hkp]
            rw [hc] at hnone
            exact hnone
        rw [hc] at hcap h
        rw [mapSet_absent _ _ _ habs]
        simp only [LRUCache.size, List.length_append, List.length_singleton,
          List.length_cons, List.length_nil] at hlt hcap h ⊢
        omega
    · rw [if_neg hcap]
      rw [mapSet_absent _ _ _ hnone]
      simp only [LRUCache.size, List.length_append, List.length_singleton]
      omega

theorem lru_maxSize_fixed (c : LRUCache) (op : CacheOp) :
    (applyOp c op).maxSize = c.maxSize := by
  cases op with
  | get k =>
    simp only [applyOp, LRUCache.get]
    cases h : mapGet c.cache k with
    | none => rfl
    | some item => rfl
  | set k v => rfl
  | del k => rfl
  | clear => rfl

theorem lru_apply_op_size (c : LRUCache) (op : CacheOp) (hM : 1 ≤ c.maxSize)
    (h : c.size ≤ c.maxSize) : (applyOp c op).size ≤ c.maxSize := by
  cases op with
  | get k => exact le_trans (lru_get_size c k) h
  | set k v => exact lru_set_size c k v hM h
  | del k =>
    simp only [applyOp, LRUCache.del, LRUCache.size] at *
    exact le_trans (List.length_filter_le _ _) h
  | clear => simp [applyOp, LRUCache.clear, LRUCache.size]

/-- C10: from the empty cache with capacity `maxSize ≥ 1`, no sequence of
`get` / `set` / `delete` / `clear` operations ever pushes the size above
`maxSize` (so in particular the bound holds after each operation of any
sequence). -/
theorem lru_size_bounded (M : ℕ) (hM : 1 ≤ M) (ops : List CacheOp) :
    (applyOps (LRUCache.empty M) ops).size ≤ M := by
  suffices h : ∀ (c : LRUCache), c.maxSize = M → c.size ≤ M →
      (applyOps c ops).size ≤ M by
    exact h (LRUCache.empty M) rfl (by simp [LRUCache.empty, LRUCache.size])
  induction ops with
  | nil => intro c _ hs; exact hs
  | cons op rest ih =>
    intro c hmax hs
    have h1 : (applyOp c op).size ≤ M := by
      rw [← hmax]
      exact lru_apply_op_size c op (hmax ▸ hM) (hmax ▸ hs)
    have h2 : (applyOp c op).maxSize = M := by rw [lru_maxSize_fixed, hmax]
    exact ih (applyOp c op) h2 h1

/-- Witness for C10 at capacity 2 and a concrete operation sequence. -/
theorem lru_size_bounded_witness :
    (applyOps (LRUCache.empty 2)
      [CacheOp.set "a" 1, CacheOp.set "b" 2, CacheOp.set "c" 3, CacheOp.get "a"]).size ≤ 2 :=
  lru_size_bounded 2 (by decide) _

/-! ### C3: key collision freedom -/

theorem jsCacheKey_int_data (x y z : ℤ) :
    (jsCacheKey (.int x) (.int y) (.int z)).data = cacheKeyChars x y z := by
  simp only [jsCacheKey, jsNumStr, String.data_append, intStr, cacheKeyChars]
  simp [List.append_assoc]

/-- C3: both tile-key forms are collision-free over integer triples: two
distinct triples produce distinct memory-cache keys `x-y-z` and (for any
fixed key namespace and format) distinct durable-store keys
`prefix/z/x/y.format`. -/
theorem tile_keys_collision_free (x₁ y₁ z₁ x₂ y₂ z₂ : ℤ) (pre format : List Char)
    (h : (x₁, y₁, z₁) ≠ (x₂, y₂, z₂)) :
    jsCacheKey (.int x₁) (.int y₁) (.int z₁) ≠ jsCacheKey (.int x₂) (.int y₂) (.int z₂)
    ∧ getTileKey pre z₁ x₁ y₁ format ≠ getTileKey pre z₂ x₂ y₂ format := by
  constructor
  · intro hk
    apply h
    have hdata : cacheKeyChars x₁ y₁ z₁ = cacheKeyChars x₂ y₂ z₂ := by
      rw [← jsCacheKey_int_data, ← jsCacheKey_int_data, hk]
    obtain ⟨hx, hy, hz⟩ := cacheKeyChars_injective hdata
    rw [hx, hy, hz]
  · intro hk
    obtain ⟨hx, hy, hz⟩ := getTileKey_injective hk
    exact h (by rw [hx, hy, hz])

/-- Witness for C3 at the distinct triples (1, 2, 3) and (1, 2, 4). -/
theorem tile_keys_collision_free_witness :
    jsCacheKey (.int 1) (.int 2) (.int 3) ≠ jsCacheKey (.int 1) (.int 2) (.int 4)
    ∧ getTileKey ['t'] 3 1 2 ['p'] ≠ getTileKey ['t'] 4 1 2 ['p'] :=
  tile_keys_collision_free 1 2 3 1 2 4 ['t'] ['p'] (by decide)

/-! ### C8: identity outside China -/

/-- C8: for any point with lon < 72.004 or lon > 137.8347 or lat < 0.8293 or
lat > 55.8271, both `toWGS84` and `fromWGS84` return the point exactly
unchanged. -/
theorem outside_china_identity (lon lat : ℝ) (h : Gcj.outOfChina lon lat) :
    Gcj.toWGS84point lon lat = (lon, lat) ∧ Gcj.fromWGS84point lon lat = (lon, lat) := by
  unfold Gcj.toWGS84point Gcj.fromWGS84point
  rw [if_neg (not_not_intro h), if_neg (not_not_intro h)]
  exact ⟨rfl, rfl⟩

/-- Witness for C8 at (−74, 40.7), a point outside China. -/
theorem outside_china_identity_witness :
    Gcj.toWGS84point (-74) 40.7 = (-74, 40.7) ∧ Gcj.fromWGS84point (-74) 40.7 = (-74, 40.7) :=
  outside_china_identity (-74) 40.7 (Or.inl (by norm_num))

/-! ### C2: the two copies of the transforms in gcj02.ts -/

/-- C2 (amended): the two copies do not define the same transforms — they
apply the delta with opposite signs, so each copy's `toWGS84` computes the
other copy's `fromWGS84`, pointwise and for every input. -/
theorem gcj_copies_swapped (lng lat : ℝ) :
    Gcj.toWGS84point lng lat = GcjDoc.fromWGS84point lng lat
    ∧ Gcj.fromWGS84point lng lat = GcjDoc.toWGS84point lng lat :=
  ⟨rfl, rfl⟩

theorem Gcj.delta_fst (a b : ℝ) :
    (Gcj.delta a b).1 =
      Gcj.transformLon (a - 105.0) (b - 35.0) * 180.0 /
        (Gcj.AXIS /
            Real.sqrt (1 - Gcj.OFFSET * Real.sin (b / 180.0 * Gcj.PI)
              * Real.sin (b / 180.0 * Gcj.PI))
          * Real.cos (b / 180.0 * Gcj.PI) * Gcj.PI) := rfl

theorem Gcj.delta_snd (a b : ℝ) :
    (Gcj.delta a b).2 =
      Gcj.transformLat (a - 105.0) (b - 35.0) * 180.0 /
        (Gcj.AXIS * (1 - Gcj.OFFSET) /
            ((1 - Gcj.OFFSET * Real.sin (b / 180.0 * Gcj.PI)
                * Real.sin (b / 180.0 * Gcj.PI))
              * Real.sqrt (1 - Gcj.OFFSET * Real.sin (b / 180.0 * Gcj.PI)
                * Real.sin (b / 180.0 * Gcj.PI)))
          * Gcj.PI) := rfl

theorem Gcj.transformLon_zero : Gcj.transformLon 0 0 = 300 := by
  rw [Gcj.transformLon]
  norm_num [Real.sin_zero, Real.sqrt_zero]

theorem Gcj.magic_pos (t : ℝ) : 0 < 1 - Gcj.OFFSET * Real.sin t * Real.sin t := by
  have h1 := Real.neg_one_le_sin t
  have h2 := Real.sin_le_one t
  rw [Gcj.OFFSET]
  nlinarith

theorem Gcj.delta_lon_pos_at_anchor : 0 < (Gcj.delta 105 35).1 := by
  rw [Gcj.delta_fst]
  have h300 : Gcj.transformLon ((105 : ℝ) - 105.0) ((35 : ℝ) - 35.0) = 300 := by
    norm_num [Gcj.transformLon_zero]
  rw [h300]
  have hpi := Real.pi_pos
  have hmagic := Gcj.magic_pos ((35 : ℝ) / 180.0 * Gcj.PI)
  have hsqrt : 0 < Real.sqrt (1 - Gcj.OFFSET * Real.sin ((35 : ℝ) / 180.0 * Gcj.PI)
      * Real.sin ((35 : ℝ) / 180.0 * Gcj.PI)) := Real.sqrt_pos.mpr hmagic
  have hcos : 0 < Real.cos ((35 : ℝ) / 180.0 * Gcj.PI) := by
    apply Real.cos_pos_of_mem_Ioo
    constructor
    · show -(Real.pi / 2) < (35 : ℝ) / 180.0 * Gcj.PI
      rw [Gcj.PI]
      nlinarith
    · show (35 : ℝ) / 180.0 * Gcj.PI < Real.pi / 2
      rw [Gcj.PI]
      nlinarith
  have haxis : (0 : ℝ) < Gcj.AXIS := by rw [Gcj.AXIS]; norm_num
  apply div_pos (by norm_num)
  apply mul_pos (mul_pos (div_pos haxis hsqrt) hcos) (by rw [Gcj.PI]; exact hpi)

/-- Counterexample for C2: at the anchor point (105, 35) — inside China —
the first copy's `toWGS84` and the second copy's `toWGS84` disagree. -/
theorem gcj_copies_not_equal :
    Gcj.toWGS84point 105 35 ≠ GcjDoc.toWGS84point 105 35 := by
  have hin : ¬ Gcj.outOfChina 105 35 := by
    rw [Gcj.outOfChina]
    push_neg
    norm_num
  have hin2 : ¬ GcjDoc.outOfChina 105 35 := hin
  have hd : 0 < (Gcj.delta 105 35).1 := Gcj.delta_lon_pos_at_anchor
  have hdoc : GcjDoc.delta 105 35 = Gcj.delta 105 35 := rfl
  unfold Gcj.toWGS84point GcjDoc.toWGS84point
  rw [if_pos hin, if_pos hin2, hdoc]
  intro hcontra
  have h1 := congrArg Prod.fst hcontra
  simp only [Prod.fst] at h1
  linarith

/-! ### C9: `forEachPoint` preserves trailing payload components -/

theorem writeSlot_getElem_ne {α : Type} (l : List α) (i j : ℕ) (v : α)
    (h : j ≠ i) (hi : i ≤ l.length) : (writeSlot l i v)[j]? = l[j]? := by
  unfold writeSlot
  by_cases hlt : i < l.length
  · rw [if_pos hlt]
    exact List.getElem?_set_ne (Ne.symm h)
  · rw [if_neg hlt]
    by_cases hj : j < l.length
    · exact List.getElem?_append_left hj
    · rw [List.getElem?_eq_none (by simp; omega), List.getElem?_eq_none (by omega)]

theorem writeSlot_length_ge {α : Type} (l : List α) (i : ℕ) (v : α) :
    l.length ≤ (writeSlot l i v).length := by
  unfold writeSlot
  by_cases hlt : i < l.length
  · rw [if_pos hlt, List.length_set]
  · rw [if_neg hlt]
    simp

theorem fepLoop_payload {α : Type} [Inhabited α] (f : α → α → α × α)
    (input : List α) (d : ℕ) (hd : 2 ≤ d) :
    ∀ (fuel offset : ℕ) (output : List α), offset % d = 0 →
      input.length ≤ output.length →
      ∀ j, 2 ≤ j % d → (fepLoop f input d fuel offset output)[j]? = output[j]? := by
  intro fuel
  induction fuel with
  | zero => intro offset output _ _ j _; rfl
  | succ fuel ih =>
    intro offset output hoff hlen j hj
    rw [fepLoop]
    by_cases hlt : offset < input.length
    · rw [if_pos hlt]
      have hoff2 : (offset + d) % d = 0 := by
        rw [Nat.add_mod_right]
        exact hoff
      have hlen1 : offset ≤ output.length := by omega
      have hlen2 : offset + 1 ≤ (writeSlot output offset (f (input.getD offset default)
          (input.getD (offset + 1) default)).1).length := by
        have h1 := writeSlot_length_ge output offset
          (f (input.getD offset default) (input.getD (offset + 1) default)).1
        unfold writeSlot at h1 ⊢
        by_cases hcase : offset < output.length
        · rw [if_pos hcase, List.length_set]
          omega
        · rw [if_neg hcase]
          simp
          omega
      have hlen3 : input.length ≤ (fepStep f input output offset).length := by
        unfold fepStep
        exact le_trans hlen (le_trans
          (writeSlot_length_ge output offset
            (f (input.getD offset default) (input.getD (offset + 1) default)).1)
          (writeSlot_length_ge
            (writeSlot output offset
              (f (input.getD offset default) (input.getD (offset + 1) default)).1)
            (offset + 1)
            (f (input.getD offset default) (input.getD (offset + 1) default)).2))
      rw [ih (offset + d) _ hoff2 hlen3 j hj]
      unfold fepStep
      have hne1 : j ≠ offset := by
        intro hcontra
        rw [hcontra, hoff] at hj
        omega
      have hne2 : j ≠ offset + 1 := by
        intro hcontra
        have hmod : (offset + 1) % d = 1 := by
          have h1d : 1 % d = 1 := Nat.mod_eq_of_lt (by omega)
          rw [Nat.add_mod, hoff, h1d]
          simpa using h1d
        rw [hcontra, hmod] at hj
        omega
      rw [writeSlot_getElem_ne _ _ _ _ hne2 hlen2, writeSlot_getElem_ne _ _ _ _ hne1 hlen1]
    · rw [if_neg hlt]

/-- C9: for every transform body, input array and dimension d > 2, calling
the `forEachPoint`-built transform with the output argument omitted clones
the input, and every component at tuple position ≥ 2 is returned unchanged
(only the first two slots of each point are overwritten). -/
theorem forEachPoint_preserves_payload (f : ℝ → ℝ → ℝ × ℝ) (input : List ℝ)
    (d : ℕ) (hd : 2 < d) (j : ℕ) (hj : 2 ≤ j % d) :
    (forEachPoint f input none (some d))[j]? = input[j]? := by
  have hd0 : ¬ d = 0 := by omega
  have hd2 : d ≠ 2 := by omega
  unfold forEachPoint
  simp only [if_neg hd0, if_pos hd2]
  exact fepLoop_payload f input d (by omega) _ 0 input (by simp) (le_refl _) j hj

/-- Witness for C9: dimension 3, a concrete six-element array, payload slot 2. -/
theorem forEachPoint_preserves_payload_witness :
    (forEachPoint (fun a b => (b, a)) [(1 : ℝ), 2, 3, 4, 5, 6] none (some 3))[2]?
      = [(1 : ℝ), 2, 3, 4, 5, 6][2]? :=
  forEachPoint_preserves_payload (fun a b => (b, a)) [1, 2, 3, 4, 5, 6] 3
    (by norm_num) 2 (by norm_num)

/-! ### C1, C5, C6: the `getTile` orchestrator -/

theorem getTile_number_shape (nx ny nz : JSNum) (mem : LRUCache) (s3 : S3Env)
    (o : OriginEnv) :
    TileEvent.memGet ∈ (getTile (.number nx) (.number ny) (.number nz) mem s3 o).events
    ∧ (getTile (.number nx) (.number ny) (.number nz) mem s3 o).result
        ≠ .error .invalidParameter := by
  simp only [getTile, getTileAfterLoad]
  repeat' split
  all_goals simp

/-- C1 (amended): `getTile` validates only that the three arguments are of
JavaScript type `number`: any call with a non-number argument fails with
`InvalidParameter` and performs no cache-tier access at all, while a call
whose arguments are all numbers — including `NaN` and the infinities, which
`typeof` classifies as numbers — passes validation, reads the memory cache,
and never fails with `InvalidParameter`. -/
theorem getTile_validation (x y z : JSVal) (mem : LRUCache) (s3 : S3Env)
    (o : OriginEnv) :
    ((jsTypeofNumber x && jsTypeofNumber y && jsTypeofNumber z) = false →
      getTile x y z mem s3 o = ⟨.error .invalidParameter, mem, []⟩)
    ∧ ((jsTypeofNumber x && jsTypeofNumber y && jsTypeofNumber z) = true →
      TileEvent.memGet ∈ (getTile x y z mem s3 o).events
      ∧ (getTile x y z mem s3 o).result ≠ .error .invalidParameter) := by
  cases x with
  | number nx =>
    cases y with
    | number ny =>
      cases z with
      | number nz =>
        refine ⟨fun h => by simp [jsTypeofNumber] at h, fun _ => ?_⟩
        exact getTile_number_shape nx ny nz mem s3 o
      | nonNumber => exact ⟨fun _ => rfl, fun h => by simp [jsTypeofNumber] at h⟩
    | nonNumber => exact ⟨fun _ => rfl, fun h => by simp [jsTypeofNumber] at h⟩
  | nonNumber => exact ⟨fun _ => rfl, fun h => by simp [jsTypeofNumber] at h⟩

/-- Witness for C1's amended claim: a call with a non-number third argument
fails with `InvalidParameter` touching nothing, and a call with `NaN` as
first argument reads the memory cache. -/
theorem getTile_validation_witness :
    getTile (.number (.int 1)) (.number (.int 2)) .nonNumber (LRUCache.empty 2)
        ⟨false, .ok none, .ok ()⟩ ⟨true, .loaded, .loaded, some 7⟩
      = ⟨.error .invalidParameter, LRUCache.empty 2, []⟩
    ∧ TileEvent.memGet ∈ (getTile (.number .nan) (.number (.int 0)) (.number (.int 0))
        (LRUCache.empty 2) ⟨false, .ok none, .ok ()⟩ ⟨true, .loaded, .loaded, some 7⟩).events :=
  ⟨(getTile_validation _ _ _ _ _ _).1 (by decide),
   ((getTile_validation _ _ _ _ _ _).2 (by decide)).1⟩

/-- Counterexample for C1: for the call `getTile(NaN, 0, 0)` — whose first
argument is not a finite numeric value — the claim demands an
`InvalidParameter` failure with no cache-tier access, but the code passes
`typeof` validation, reads the memory tier, and resolves through the origin. -/
theorem getTile_nan_counterexample :
    ¬ ((getTile (.number .nan) (.number (.int 0)) (.number (.int 0)) (LRUCache.empty 2)
          ⟨false, .ok none, .ok ()⟩ ⟨true, .loaded, .loaded, some 7⟩).result
        = .error .invalidParameter
      ∧ (getTile (.number .nan) (.number (.int 0)) (.number (.int 0)) (LRUCache.empty 2)
          ⟨false, .ok none, .ok ()⟩ ⟨true, .loaded, .loaded, some 7⟩).events = []) := by
  decide

/-- C5: within one `getTile` call the tier lookups happen strictly in the
order memory, durable, origin, each at most once; a memory hit returns the
cached bytes with no durable or origin access at all; a durable hit never
reaches the origin. -/
theorem getTile_tier_order (nx ny nz : JSNum) (mem : LRUCache) (s3 : S3Env)
    (o : OriginEnv) (b : Buf) :
    List.Sublist (readEvents (getTile (.number nx) (.number ny) (.number nz) mem s3 o).events)
        [TileEvent.memGet, TileEvent.s3Get, TileEvent.originGet]
    ∧ ((mem.get (jsCacheKey nx ny nz)).1 = some b →
        (getTile (.number nx) (.number ny) (.number nz) mem s3 o).result = .ok b
        ∧ (getTile (.number nx) (.number ny) (.number nz) mem s3 o).events
            = [TileEvent.memGet])
    ∧ (s3.enabled = true → s3.read = .ok (some b) →
        TileEvent.originGet ∉ (getTile (.number nx) (.number ny) (.number nz) mem s3 o).events) := by
  refine ⟨?_, ?_, ?_⟩
  · simp only [getTile, getTileAfterLoad]
    repeat' split
    all_goals simp only [readEvents]
    all_goals decide
  · intro hb
    rcases hg : LRUCache.get mem (jsCacheKey nx ny nz) with ⟨r, mem1⟩
    rw [hg] at hb
    simp only at hb
    subst hb
    simp [getTile, hg]
  · intro he hr
    rcases hg : LRUCache.get mem (jsCacheKey nx ny nz) with ⟨r, mem1⟩
    cases r with
    | some buf => simp [getTile, hg]
    | none => simp [getTile, hg, he, hr]

/-- Witness for C5 at a concrete memory-hit environment. -/
theorem getTile_tier_order_witness :
    (getTile (.number (.int 1)) (.number (.int 2)) (.number (.int 3))
        ((LRUCache.empty 2).set "1-2-3" 9) ⟨true, .ok (some 4), .ok ()⟩
        ⟨true, .loaded, .loaded, some 7⟩).result = .ok 9
    ∧ (getTile (.number (.int 1)) (.number (.int 2)) (.number (.int 3))
        ((LRUCache.empty 2).set "1-2-3" 9) ⟨true, .ok (some 4), .ok ()⟩
        ⟨true, .loaded, .loaded, some 7⟩).events = [TileEvent.memGet] :=
  (getTile_tier_order (.int 1) (.int 2) (.int 3) ((LRUCache.empty 2).set "1-2-3" 9)
    ⟨true, .ok (some 4), .ok ()⟩ ⟨true, .loaded, .loaded, some 7⟩ 9).2.1 (by decide)

/-- C6: a durable-tier failure never propagates: a failing S3 read produces
exactly the same outcome as an S3 miss (resolution continues to the origin),
and the fire-and-forget S3 write cannot affect the outcome at all, so after
an origin success the call returns the extracted bytes even when the write
fails. -/
theorem s3_failure_graceful (x y z : JSVal) (mem : LRUCache) (s3 : S3Env)
    (o : OriginEnv) (u : Unit) (w : Except Unit Unit) :
    getTile x y z mem { s3 with read := .error u } o
        = getTile x y z mem { s3 with read := .ok none } o
    ∧ getTile x y z mem { s3 with write := w } o = getTile x y z mem s3 o
    ∧ (∀ b, (getTile x y z mem s3 o).result = .ok b →
        (getTile x y z mem { s3 with write := .error u } o).result = .ok b) := by
  have hw : ∀ (w' : Except Unit Unit),
      getTile x y z mem { s3 with write := w' } o = getTile x y z mem s3 o := by
    intro w'
    cases x <;> cases y <;> cases z <;> rfl
  refine ⟨?_, hw w, ?_⟩
  · cases x <;> cases y <;> cases z <;> rfl
  · intro b hb
    rw [hw (.error u)]
    exact hb

/-- Witness for C6: with an S3 read failure and an S3 write failure in a
concrete environment, the call still resolves through the origin and returns
the extracted bytes. -/
theorem s3_failure_graceful_witness :
    (getTile (.number (.int 1)) (.number (.int 2)) (.number (.int 3)) (LRUCache.empty 2)
        ⟨true, .error (), .error ()⟩ ⟨true, .loaded, .loaded, some 7⟩).result = .ok 7 :=
  (s3_failure_graceful (.number (.int 1)) (.number (.int 2)) (.number (.int 3))
      (LRUCache.empty 2) ⟨true, .error (), .ok ()⟩ ⟨true, .loaded, .loaded, some 7⟩
      () (.error ())).2.2 7 (by decide)

/-! ### C7: the to/from round trip inside China

The round trip is not exact; the proof bounds the delta offset over a region
slightly larger than the China box (margin 1/50 of a degree each side, which
the first application of the offset cannot exceed), giving the explicit
epsilon 1/25 of a degree for the round trip. -/

theorem Gcj.sqrt_abs_le {x : ℝ} (hx : |x| ≤ 33.1) : Real.sqrt |x| ≤ 5.76 :=
  (Real.sqrt_le_left (by norm_num)).mpr (by nlinarith [abs_nonneg x])

theorem Gcj.cross_bounds (x y : ℝ) (hx : |x| ≤ 33.1) (hy : |y| ≤ 34.3) :
    x * y ≤ 1135.33 ∧ -1135.33 ≤ x * y ∧ x * x ≤ 1095.61 ∧ y * y ≤ 1176.49 := by
  obtain ⟨hx1, hx2⟩ := abs_le.mp hx
  obtain ⟨hy1, hy2⟩ := abs_le.mp hy
  refine ⟨?_, ?_, ?_, ?_⟩
  · nlinarith [mul_nonneg (by linarith : (0:ℝ) ≤ 33.1 - x) (by linarith : (0:ℝ) ≤ 34.3 + y),
      mul_nonneg (by linarith : (0:ℝ) ≤ 33.1 + x) (by linarith : (0:ℝ) ≤ 34.3 - y)]
  · nlinarith [mul_nonneg (by linarith : (0:ℝ) ≤ 33.1 - x) (by linarith : (0:ℝ) ≤ 34.3 - y),
      mul_nonneg (by linarith : (0:ℝ) ≤ 33.1 + x) (by linarith : (0:ℝ) ≤ 34.3 + y)]
  · nlinarith [mul_nonneg (by linarith : (0:ℝ) ≤ 33.1 - x) (by linarith : (0:ℝ) ≤ 33.1 + x)]
  · nlinarith [mul_nonneg (by linarith : (0:ℝ) ≤ 34.3 - y) (by linarith : (0:ℝ) ≤ 34.3 + y)]

theorem Gcj.transformLat_bound (x y : ℝ) (hx : |x| ≤ 33.1) (hy : |y| ≤ 34.3) :
    |Gcj.transformLat x y| ≤ 1010 := by
  obtain ⟨hx1, hx2⟩ := abs_le.mp hx
  obtain ⟨hy1, hy2⟩ := abs_le.mp hy
  obtain ⟨hc1, hc2, hc3, hc4⟩ := Gcj.cross_bounds x y hx hy
  have hc5 : (0:ℝ) ≤ y * y := mul_self_nonneg y
  have hs0 : 0 ≤ Real.sqrt |x| := Real.sqrt_nonneg _
  have hs1 : Real.sqrt |x| ≤ 5.76 := Gcj.sqrt_abs_le hx
  have i1a := Real.neg_one_le_sin (6.0 * x * Gcj.PI)
  have i1b := Real.sin_le_one (6.0 * x * Gcj.PI)
  have i2a := Real.neg_one_le_sin (2.0 * x * Gcj.PI)
  have i2b := Real.sin_le_one (2.0 * x * Gcj.PI)
  have i3a := Real.neg_one_le_sin (y * Gcj.PI)
  have i3b := Real.sin_le_one (y * Gcj.PI)
  have i4a := Real.neg_one_le_sin (y / 3.0 * Gcj.PI)
  have i4b := Real.sin_le_one (y / 3.0 * Gcj.PI)
  have i5a := Real.neg_one_le_sin (y / 12.0 * Gcj.PI)
  have i5b := Real.sin_le_one (y / 12.0 * Gcj.PI)
  have i6a := Real.neg_one_le_sin (y * Gcj.PI / 30.0)
  have i6b := Real.sin_le_one (y * Gcj.PI / 30.0)
  rw [Gcj.transformLat, abs_le]
  constructor <;> linarith

theorem Gcj.transformLon_bound (x y : ℝ) (hx : |x| ≤ 33.1) (hy : |y| ≤ 34.3) :
    |Gcj.transformLon x y| ≤ 995 := by
  obtain ⟨hx1, hx2⟩ := abs_le.mp hx
  obtain ⟨hy1, hy2⟩ := abs_le.mp hy
  obtain ⟨hc1, hc2, hc3, hc4⟩ := Gcj.cross_bounds x y hx hy
  have hc5 : (0:ℝ) ≤ x * x := mul_self_nonneg x
  have hs0 : 0 ≤ Real.sqrt |x| := Real.sqrt_nonneg _
  have hs1 : Real.sqrt |x| ≤ 5.76 := Gcj.sqrt_abs_le hx
  have i1a := Real.neg_one_le_sin (6.0 * x * Gcj.PI)
  have i1b := Real.sin_le_one (6.0 * x * Gcj.PI)
  have i2a := Real.neg_one_le_sin (2.0 * x * Gcj.PI)
  have i2b := Real.sin_le_one (2.0 * x * Gcj.PI)
  have i3a := Real.neg_one_le_sin (x * Gcj.PI)
  have i3b := Real.sin_le_one (x * Gcj.PI)
  have i4a := Real.neg_one_le_sin (x / 3.0 * Gcj.PI)
  have i4b := Real.sin_le_one (x / 3.0 * Gcj.PI)
  have i5a := Real.neg_one_le_sin (x / 12.0 * Gcj.PI)
  have i5b := Real.sin_le_one (x / 12.0 * Gcj.PI)
  have i6a := Real.neg_one_le_sin (x / 30.0 * Gcj.PI)
  have i6b := Real.sin_le_one (x / 30.0 * Gcj.PI)
  rw [Gcj.transformLon, abs_le]
  constructor <;> linarith

theorem abs_div_le (t D tmax Dmin : ℝ) (ht : |t| ≤ tmax) (hD : Dmin ≤ D)
    (h0 : 0 < Dmin) : |t * 180.0 / D| ≤ tmax * 180.0 / Dmin := by
  rw [abs_div, abs_mul, show |(180.0 : ℝ)| = 180.0 by norm_num,
    abs_of_pos (lt_of_lt_of_le h0 hD)]
  exact div_le_div₀ (by nlinarith [abs_nonneg t]) (by nlinarith [abs_nonneg t]) h0 hD

theorem Gcj.delta_bound (lon lat : ℝ) (h1 : 71.9 ≤ lon) (h2 : lon ≤ 137.94)
    (h3 : 0.7 ≤ lat) (h4 : lat ≤ 55.95) :
    |(Gcj.delta lon lat).1| ≤ 1 / 50 ∧ |(Gcj.delta lon lat).2| ≤ 1 / 50 := by
  have hx : |lon - 105.0| ≤ 33.1 := abs_le.mpr ⟨by linarith, by linarith⟩
  have hy : |lat - 35.0| ≤ 34.3 := abs_le.mpr ⟨by linarith, by linarith⟩
  have htLon := Gcj.transformLon_bound _ _ hx hy
  have htLat := Gcj.transformLat_bound _ _ hx hy
  have hpi1 : (3.141592 : ℝ) < Gcj.PI := by rw [Gcj.PI]; exact Real.pi_gt_d6
  have hpi0 : (0 : ℝ) < Gcj.PI := by linarith
  have hr0 : 0 ≤ lat / 180.0 * Gcj.PI :=
    mul_nonneg (by linarith) (le_of_lt hpi0)
  have hr1 : lat / 180.0 * Gcj.PI ≤ Gcj.PI / 3 := by
    nlinarith [mul_nonneg (show (0:ℝ) ≤ 1 / 3 - lat / 180.0 by linarith) (le_of_lt hpi0)]
  have hcos : 1 / 2 ≤ Real.cos (lat / 180.0 * Gcj.PI) := by
    have hmono := Real.cos_le_cos_of_nonneg_of_le_pi hr0
      (show Gcj.PI / 3 ≤ Real.pi by rw [Gcj.PI]; linarith [Real.pi_pos]) hr1
    rw [show Gcj.PI / 3 = Real.pi / 3 by rw [Gcj.PI], Real.cos_pi_div_three] at hmono
    exact hmono
  have hsin1 := Real.sin_le_one (lat / 180.0 * Gcj.PI)
  have hsin2 := Real.neg_one_le_sin (lat / 180.0 * Gcj.PI)
  have hm1 : (0.993 : ℝ) ≤ 1 - Gcj.OFFSET * Real.sin (lat / 180.0 * Gcj.PI)
      * Real.sin (lat / 180.0 * Gcj.PI) := by
    rw [Gcj.OFFSET]
    nlinarith
  have hm2 : 1 - Gcj.OFFSET * Real.sin (lat / 180.0 * Gcj.PI)
      * Real.sin (lat / 180.0 * Gcj.PI) ≤ 1 := by
    rw [Gcj.OFFSET]
    nlinarith [mul_self_nonneg (Real.sin (lat / 180.0 * Gcj.PI))]
  have hm0 : (0 : ℝ) < 1 - Gcj.OFFSET * Real.sin (lat / 180.0 * Gcj.PI)
      * Real.sin (lat / 180.0 * Gcj.PI) := by linarith
  have hsq1 : Real.sqrt (1 - Gcj.OFFSET * Real.sin (lat / 180.0 * Gcj.PI)
      * Real.sin (lat / 180.0 * Gcj.PI)) ≤ 1 := Real.sqrt_le_one.mpr hm2
  have hsq0 : 0 < Real.sqrt (1 - Gcj.OFFSET * Real.sin (lat / 180.0 * Gcj.PI)
      * Real.sin (lat / 180.0 * Gcj.PI)) := Real.sqrt_pos.mpr hm0
  constructor
  · rw [Gcj.delta_fst]
    have hA : (6378245 : ℝ) ≤ Gcj.AXIS / Real.sqrt (1 - Gcj.OFFSET
        * Real.sin (lat / 180.0 * Gcj.PI) * Real.sin (lat / 180.0 * Gcj.PI)) := by
      rw [Gcj.AXIS, le_div_iff₀ hsq0]
      nlinarith
    have hAC : (6378245 * (1 / 2) : ℝ) ≤ Gcj.AXIS / Real.sqrt (1 - Gcj.OFFSET
        * Real.sin (lat / 180.0 * Gcj.PI) * Real.sin (lat / 180.0 * Gcj.PI))
        * Real.cos (lat / 180.0 * Gcj.PI) :=
      mul_le_mul hA hcos (by norm_num) (le_trans (by norm_num) hA)
    have hD : (6378245 * (1 / 2) * 3.141592 : ℝ) ≤ Gcj.AXIS / Real.sqrt (1 - Gcj.OFFSET
        * Real.sin (lat / 180.0 * Gcj.PI) * Real.sin (lat / 180.0 * Gcj.PI))
        * Real.cos (lat / 180.0 * Gcj.PI) * Gcj.PI :=
      mul_le_mul hAC (le_of_lt hpi1) (by norm_num) (le_trans (by norm_num) hAC)
    refine le_trans (abs_div_le _ _ 995 (6378245 * (1 / 2) * 3.141592) htLon hD
      (by norm_num)) ?_
    norm_num
  · rw [Gcj.delta_snd]
    have hms : (0 : ℝ) < (1 - Gcj.OFFSET * Real.sin (lat / 180.0 * Gcj.PI)
          * Real.sin (lat / 180.0 * Gcj.PI))
        * Real.sqrt (1 - Gcj.OFFSET * Real.sin (lat / 180.0 * Gcj.PI)
          * Real.sin (lat / 180.0 * Gcj.PI)) := mul_pos hm0 hsq0
    have hms1 : (1 - Gcj.OFFSET * Real.sin (lat / 180.0 * Gcj.PI)
          * Real.sin (lat / 180.0 * Gcj.PI))
        * Real.sqrt (1 - Gcj.OFFSET * Real.sin (lat / 180.0 * Gcj.PI)
          * Real.sin (lat / 180.0 * Gcj.PI)) ≤ 1 := by
      nlinarith [Real.sqrt_nonneg (1 - Gcj.OFFSET * Real.sin (lat / 180.0 * Gcj.PI)
        * Real.sin (lat / 180.0 * Gcj.PI))]
    have hoff1 : Gcj.OFFSET ≤ 0.0067 := by rw [Gcj.OFFSET]; norm_num
    have hoff0 : (0 : ℝ) ≤ Gcj.OFFSET := by rw [Gcj.OFFSET]; norm_num
    have hA2 : (6378245 * 0.993 : ℝ) ≤ Gcj.AXIS * (1 - Gcj.OFFSET)
        / ((1 - Gcj.OFFSET * Real.sin (lat / 180.0 * Gcj.PI)
            * Real.sin (lat / 180.0 * Gcj.PI))
          * Real.sqrt (1 - Gcj.OFFSET * Real.sin (lat / 180.0 * Gcj.PI)
            * Real.sin (lat / 180.0 * Gcj.PI))) := by
      rw [le_div_iff₀ hms, Gcj.AXIS]
      nlinarith [hms1, hms]
    have hD2 : (6378245 * 0.993 * 3.141592 : ℝ) ≤ Gcj.AXIS * (1 - Gcj.OFFSET)
        / ((1 - Gcj.OFFSET * Real.sin (lat / 180.0 * Gcj.PI)
            * Real.sin (lat / 180.0 * Gcj.PI))
          * Real.sqrt (1 - Gcj.OFFSET * Real.sin (lat / 180.0 * Gcj.PI)
            * Real.sin (lat / 180.0 * Gcj.PI))) * Gcj.PI :=
      mul_le_mul hA2 (le_of_lt hpi1) (by norm_num) (le_trans (by norm_num) hA2)
    refine le_trans (abs_div_le _ _ 1010 (6378245 * 0.993 * 3.141592) htLat hD2
      (by norm_num)) ?_
    norm_num

/-- C7: for every point strictly inside the China box, applying `toWGS84`
then `fromWGS84` returns the original point to within 1/25 of a degree in
each coordinate (the concrete epsilon realising the claim's "small numeric
epsilon"; the offset is not perfectly involutive, so exact equality is not
claimed). -/
theorem roundtrip_epsilon (lon lat : ℝ) (h1 : 72.004 < lon) (h2 : lon < 137.8347)
    (h3 : 0.8293 < lat) (h4 : lat < 55.8271) :
    |(Gcj.fromWGS84point (Gcj.toWGS84point lon lat).1 (Gcj.toWGS84point lon lat).2).1 - lon|
        ≤ 1 / 25
    ∧ |(Gcj.fromWGS84point (Gcj.toWGS84point lon lat).1 (Gcj.toWGS84point lon lat).2).2 - lat|
        ≤ 1 / 25 := by
  have hin : ¬ Gcj.outOfChina lon lat := by
    rw [Gcj.outOfChina]
    push_neg
    exact ⟨by linarith, by linarith, by linarith, by linarith⟩
  obtain ⟨hd1, hd2⟩ := Gcj.delta_bound lon lat (by linarith) (by linarith)
    (by linarith) (by linarith)
  obtain ⟨ha1, hb1⟩ := abs_le.mp hd1
  obtain ⟨ha2, hb2⟩ := abs_le.mp hd2
  have hq : Gcj.toWGS84point lon lat
      = (lon - (Gcj.delta lon lat).1, lat - (Gcj.delta lon lat).2) := by
    rw [Gcj.toWGS84point, if_pos hin]
  rw [hq]
  by_cases hq2 : Gcj.outOfChina (lon - (Gcj.delta lon lat).1) (lat - (Gcj.delta lon lat).2)
  · rw [Gcj.fromWGS84point, if_neg (not_not_intro hq2)]
    constructor
    · rw [show lon - (Gcj.delta lon lat).1 - lon = -(Gcj.delta lon lat).1 by ring, abs_neg]
      linarith
    · rw [show lat - (Gcj.delta lon lat).2 - lat = -(Gcj.delta lon lat).2 by ring, abs_neg]
      linarith
  · obtain ⟨he1, he2⟩ := Gcj.delta_bound (lon - (Gcj.delta lon lat).1)
      (lat - (Gcj.delta lon lat).2) (by linarith) (by linarith) (by linarith) (by linarith)
    obtain ⟨hc1, hc2⟩ := abs_le.mp he1
    obtain ⟨hc3, hc4⟩ := abs_le.mp he2
    rw [Gcj.fromWGS84point, if_pos hq2]
    constructor
    · rw [abs_le]
      constructor <;> simp only <;> linarith
    · rw [abs_le]
      constructor <;> simp only <;> linarith

/-- Witness for C7 at the anchor point (105, 35), strictly inside China. -/
theorem roundtrip_epsilon_witness :
    |(Gcj.fromWGS84point (Gcj.toWGS84point 105 35).1 (Gcj.toWGS84point 105 35).2).1 - 105|
        ≤ 1 / 25
    ∧ |(Gcj.fromWGS84point (Gcj.toWGS84point 105 35).1 (Gcj.toWGS84point 105 35).2).2 - 35|
        ≤ 1 / 25 :=
  roundtrip_epsilon 105 35 (by norm_num) (by norm_num) (by norm_num) (by norm_num)

end MaptileProxy
